import Mathlib

/-!
Verification of the trigger-tracking / abort-and-backoff logic of the
repository's `RcloneSyncer` class (src/utils/rclone.py).

The shallow embedding below translates `RcloneSyncer.__init__` and
`RcloneSyncer.sync_logic` into Lean:

* Python dicts become association lists `List (String × _)`; assignment to an
  existing key updates it in place, assignment to a new key appends at the end
  (insertion-order semantics of Python dicts).
* The tracked entry `{'count': n, 'expires': e}` becomes the structure `Track`;
  the sentinel `''` used by the code for "no expiry" becomes `Option.none`.
* Wall-clock time (`time.time()`) is an explicit `now : Int` parameter of one
  evaluation pass; the code reads the clock more than once per pass, which the
  spec collapses to a single `now` per `evaluate(text, now)` call.
* `trigger_text.lower() in data.lower()` (Python case-insensitive substring
  containment) becomes `phraseInData`, built on an explicit executable
  character-list containment check.
* The constructor fields `rclone_extras` and `dry_run` of the Python class do
  not participate in the trigger logic and are omitted from the state.
-/

set_option autoImplicit false

namespace Cloudplow

/-- Per-trigger configuration, one entry of the merged `rclone_sleeps` dict:
`count` occurrences within `timeout` seconds abort and sleep `sleep` seconds. -/
structure TriggerConf where
  count : Int
  timeout : Int
  sleep : Int
  deriving Repr, DecidableEq

/-- Mutable tracking state of one trigger phrase, the Python dict
`{'count': n, 'expires': e}`; `expires = none` models the sentinel `''`. -/
structure Track where
  count : Nat
  expires : Option Int
  deriving Repr, DecidableEq

/-- Look up a key in an association list (Python `d[k]` / `k in d`). -/
def lookupAssoc {α : Type} (m : List (String × α)) (k : String) : Option α :=
  match m with
  | [] => none
  | (k', v) :: rest => if k' = k then some v else lookupAssoc rest k

/-- Set a key in an association list: Python dict assignment. An existing key
is updated in place; a new key is appended at the end. -/
def setAssoc {α : Type} (m : List (String × α)) (k : String) (v : α) : List (String × α) :=
  match m with
  | [] => [(k, v)]
  | (k', v') :: rest => if k' = k then (k, v) :: rest else (k', v') :: setAssoc rest k v

/-- Does the character list `hay` start with `needle`? -/
def beginsWith : List Char → List Char → Bool
  | [], _ => true
  | _ :: _, [] => false
  | a :: as, b :: bs => a = b && beginsWith as bs

/-- Does `needle` occur contiguously anywhere inside `hay`?
Executable model of Python's `needle in hay` on strings. -/
def listContains (needle : List Char) : List Char → Bool
  | [] => beginsWith needle []
  | c :: rest => beginsWith needle (c :: rest) || listContains needle rest

/-- The matching test of `sync_logic` line 129:
`trigger_text.lower() in data.lower()`. -/
def phraseInData (phrase data : String) : Bool :=
  listContains (phrase.toList.map Char.toLower) (data.toList.map Char.toLower)

/-- The state of one `RcloneSyncer` instance: the merged trigger configuration
and the mutable fields set by `__init__` and written by `sync_logic`. -/
structure Syncer where
  rclone_sleeps : List (String × TriggerConf)
  trigger_tracks : List (String × Track)
  delayed_check : Int
  delayed_trigger : Option String
  deriving Repr, DecidableEq

/-- Modelled from the spec: `misc.merge_dicts` is imported from a module that
is not under src/. The spec says the merged configuration takes entries from
both sources "with later source overriding on identical phrase key"
(Python `dict.update` semantics). -/
def merge_dicts (a b : List (String × TriggerConf)) : List (String × TriggerConf) :=
  b.foldl (fun acc kv => setAssoc acc kv.1 kv.2) a

/-- `RcloneSyncer.__init__` (lines 96-116), restricted to the trigger-logic
fields: merge the two `rclone_sleeps` dicts, start with no tracked triggers,
`delayed_check = 0` and `delayed_trigger = None`. The constructor performs no
validation of the configuration. -/
def RcloneSyncer.init (from_sleeps to_sleeps : List (String × TriggerConf)) : Syncer :=
  { rclone_sleeps := merge_dicts from_sleeps to_sleeps
    trigger_tracks := []
    delayed_check := 0
    delayed_trigger := none }

/-- Lines 122-126 of `sync_logic`: if the trigger is tracked with a set expiry
and `now` is at or past it, reset the entry to `{'count': 0, 'expires': ''}`. -/
def checkExpiry (now : Int) (trigger_text : String) (s : Syncer) : Syncer :=
  match lookupAssoc s.trigger_tracks trigger_text with
  | none => s
  | some tr =>
    match tr.expires with
    | none => s
    | some e =>
      if now ≥ e then
        { s with trigger_tracks := setAssoc s.trigger_tracks trigger_text ⟨0, none⟩ }
      else s

/-- Lines 130-153 of `sync_logic`, the body guarded by the substring match:
first occurrence (not tracked, or count 0) initializes the entry to
`{'count': 1, 'expires': now + timeout}` without any threshold check;
otherwise the count is incremented and compared with the configured `count`
using `>=`; on reaching it, `delayed_check` and `delayed_trigger` are set and
the evaluation fires. -/
def applyMatch (now : Int) (trigger_text : String) (conf : TriggerConf) (s : Syncer) :
    Syncer × Bool :=
  match lookupAssoc s.trigger_tracks trigger_text with
  | none =>
    ({ s with trigger_tracks :=
        setAssoc s.trigger_tracks trigger_text ⟨1, some (now + conf.timeout)⟩ }, false)
  | some tr =>
    if tr.count = 0 then
      ({ s with trigger_tracks :=
          setAssoc s.trigger_tracks trigger_text ⟨1, some (now + conf.timeout)⟩ }, false)
    else
      let s' :=
        { s with
          trigger_tracks := setAssoc s.trigger_tracks trigger_text ⟨tr.count + 1, tr.expires⟩ }
      if (tr.count : Int) + 1 ≥ conf.count then
        ({ s' with delayed_check := conf.sleep, delayed_trigger := some trigger_text }, true)
      else
        (s', false)

/-- One iteration of the `sync_logic` loop for a single configured trigger:
lazy expiry check, then the substring match guard. -/
def stepTrigger (now : Int) (data : String) (trigger_text : String) (conf : TriggerConf)
    (s : Syncer) : Syncer × Bool :=
  let s' := checkExpiry now trigger_text s
  if phraseInData trigger_text data then applyMatch now trigger_text conf s' else (s', false)

/-- The `for trigger_text, trigger_config in self.rclone_sleeps.items()` loop of
`sync_logic`: triggers are visited in configuration order and the loop returns
`True` as soon as one fires. -/
def syncLoop (now : Int) (data : String) :
    List (String × TriggerConf) → Syncer → Syncer × Bool
  | [], s => (s, false)
  | (trigger_text, conf) :: rest, s =>
    let r := stepTrigger now data trigger_text conf s
    if r.2 then (r.1, true) else syncLoop now data rest r.1

/-- `RcloneSyncer.sync_logic` (lines 118-154): one evaluation pass over the
merged trigger configuration at time `now` with output text `data`, returning
the updated instance state and whether a trigger fired. -/
def RcloneSyncer.sync_logic (s : Syncer) (now : Int) (data : String) : Syncer × Bool :=
  syncLoop now data s.rclone_sleeps s

/-- Run `sync_logic` once per timestamp in order, threading the state, and
collect the returned booleans. -/
def runEvals (s : Syncer) (data : String) : List Int → Syncer × List Bool
  | [] => (s, [])
  | t :: ts =>
    let r := RcloneSyncer.sync_logic s t data
    let rest := runEvals r.1 data ts
    (rest.1, r.2 :: rest.2)

/-- The spec-side data-model invariant on one tracked entry:
`occurrenceCount == 0` if and only if `expiresAt` is unset. -/
def trackWF (tr : Track) : Prop := tr.count = 0 ↔ tr.expires = none

/-- Every tracked entry of a trigger-state map satisfies `trackWF`. -/
def tracksWF (m : List (String × Track)) : Prop := ∀ kv ∈ m, trackWF kv.2

instance (tr : Track) : Decidable (trackWF tr) := by
  unfold trackWF; infer_instance

instance (m : List (String × Track)) : Decidable (tracksWF m) := by
  unfold tracksWF; infer_instance

/-! ### Single-trigger evaluation lemmas

For a configuration holding exactly one trigger, one `sync_logic` pass is
described in closed form, by the cases of the code: no tracking yet, active
unexpired tracking, and expired tracking. -/

theorem sync_logic_single_fresh (p data : String) (conf : TriggerConf) (now : Int) (s : Syncer)
    (hcfg : s.rclone_sleeps = [(p, conf)]) (htr : s.trigger_tracks = [])
    (hm : phraseInData p data = true) :
    RcloneSyncer.sync_logic s now data =
      ({ s with trigger_tracks := [(p, ⟨1, some (now + conf.timeout)⟩)] }, false) := by
  simp [RcloneSyncer.sync_logic, hcfg, syncLoop, stepTrigger, checkExpiry, applyMatch, htr,
    lookupAssoc, setAssoc, hm]

theorem sync_logic_single_active (p data : String) (conf : TriggerConf) (k : Nat) (e now : Int)
    (s : Syncer)
    (hcfg : s.rclone_sleeps = [(p, conf)]) (htr : s.trigger_tracks = [(p, ⟨k, some e⟩)])
    (hk : k ≠ 0) (hnow : now < e) (hm : phraseInData p data = true) :
    RcloneSyncer.sync_logic s now data =
      if (k : Int) + 1 ≥ conf.count then
        ({ s with trigger_tracks := [(p, ⟨k + 1, some e⟩)],
                  delayed_check := conf.sleep, delayed_trigger := some p }, true)
      else
        ({ s with trigger_tracks := [(p, ⟨k + 1, some e⟩)] }, false) := by
  have h1 : ¬ (now ≥ e) := not_le.mpr hnow
  by_cases hc : (k : Int) + 1 ≥ conf.count
  · simp [RcloneSyncer.sync_logic, hcfg, syncLoop, stepTrigger, checkExpiry, applyMatch, htr,
      lookupAssoc, setAssoc, hm, h1, hk, hc]
  · simp [RcloneSyncer.sync_logic, hcfg, syncLoop, stepTrigger, checkExpiry, applyMatch, htr,
      lookupAssoc, setAssoc, hm, h1, hk, hc]

theorem sync_logic_single_expired (p data : String) (conf : TriggerConf) (k : Nat) (e now : Int)
    (s : Syncer)
    (hcfg : s.rclone_sleeps = [(p, conf)]) (htr : s.trigger_tracks = [(p, ⟨k, some e⟩)])
    (hnow : e ≤ now) (hm : phraseInData p data = true) :
    RcloneSyncer.sync_logic s now data =
      ({ s with trigger_tracks := [(p, ⟨1, some (now + conf.timeout)⟩)] }, false) := by
  have h1 : now ≥ e := hnow
  simp [RcloneSyncer.sync_logic, hcfg, syncLoop, stepTrigger, checkExpiry, applyMatch, htr,
    lookupAssoc, setAssoc, hm, h1]

/-! ### Evaluation-sequence lemmas -/

theorem runEvals_append (data : String) :
    ∀ (xs ys : List Int) (s : Syncer),
      runEvals s data (xs ++ ys) =
        ((runEvals (runEvals s data xs).1 data ys).1,
         (runEvals s data xs).2 ++ (runEvals (runEvals s data xs).1 data ys).2) := by
  intro xs
  induction xs with
  | nil => intro ys s; simp [runEvals]
  | cons x xs ih => intro ys s; simp [runEvals, ih]

theorem runEvals_cons (s : Syncer) (data : String) (t : Int) (ts : List Int) :
    runEvals s data (t :: ts) =
      ((runEvals (RcloneSyncer.sync_logic s t data).1 data ts).1,
       (RcloneSyncer.sync_logic s t data).2 ::
         (runEvals (RcloneSyncer.sync_logic s t data).1 data ts).2) := rfl

/-- While the accumulated count stays strictly below the threshold, matching
evaluations before the stored expiry only increment the count and never fire. -/
theorem runEvals_accum (p data : String) (conf : TriggerConf) (e : Int) :
    ∀ (ts : List Int) (k : Nat) (s : Syncer),
      s.rclone_sleeps = [(p, conf)] → s.trigger_tracks = [(p, ⟨k, some e⟩)] →
      k ≠ 0 → phraseInData p data = true → (∀ t ∈ ts, t < e) →
      (k : Int) + ts.length < conf.count →
      runEvals s data ts =
        ({ s with trigger_tracks := [(p, ⟨k + ts.length, some e⟩)] },
         List.replicate ts.length false) := by
  intro ts
  induction ts with
  | nil =>
    intro k s hcfg htr hk hm hts hlt
    simp [runEvals, ← htr]
  | cons t ts ih =>
    intro k s hcfg htr hk hm hts hlt
    have hc : ¬ ((k : Int) + 1 ≥ conf.count) := by
      simp only [List.length_cons] at hlt
      push_cast at hlt ⊢
      omega
    have hstep := sync_logic_single_active p data conf k e t s hcfg htr hk
      (hts t (by simp)) hm
    rw [if_neg hc] at hstep
    have hrest := ih (k + 1) { s with trigger_tracks := [(p, ⟨k + 1, some e⟩)] }
      (by simpa using hcfg) rfl (by omega) hm
      (fun t' ht' => hts t' (by simp [ht']))
      (by simp only [List.length_cons] at hlt; push_cast at hlt ⊢; omega)
    simp only [runEvals, hstep, hrest, List.length_cons, List.replicate_succ]
    have harith : k + 1 + ts.length = k + (ts.length + 1) := by omega
    simp [harith]

/-- Once the count can reach the threshold on the last of the remaining
matching evaluations, every earlier one returns `false` and the last fires,
setting the cooldown fields. -/
theorem runEvals_toFire (p data : String) (conf : TriggerConf) (e : Int) :
    ∀ (ts : List Int) (k : Nat) (s : Syncer),
      s.rclone_sleeps = [(p, conf)] → s.trigger_tracks = [(p, ⟨k, some e⟩)] →
      k ≠ 0 → phraseInData p data = true → (∀ t ∈ ts, t < e) →
      ts ≠ [] → (k : Int) + ts.length = conf.count →
      runEvals s data ts =
        ({ s with trigger_tracks := [(p, ⟨k + ts.length, some e⟩)],
                  delayed_check := conf.sleep, delayed_trigger := some p },
         List.replicate (ts.length - 1) false ++ [true]) := by
  intro ts
  induction ts with
  | nil => intro k s _ _ _ _ _ hne _; exact absurd rfl hne
  | cons t ts ih =>
    intro k s hcfg htr hk hm hts _ hN
    cases ts with
    | nil =>
      have hc : (k : Int) + 1 ≥ conf.count := by
        simp only [List.length_cons, List.length_nil] at hN
        push_cast at hN ⊢
        omega
      have hstep := sync_logic_single_active p data conf k e t s hcfg htr hk
        (hts t (by simp)) hm
      rw [if_pos hc] at hstep
      simp [runEvals, hstep]
    | cons u us =>
      have hc : ¬ ((k : Int) + 1 ≥ conf.count) := by
        simp only [List.length_cons] at hN
        push_cast at hN ⊢
        omega
      have hstep := sync_logic_single_active p data conf k e t s hcfg htr hk
        (hts t (by simp)) hm
      rw [if_neg hc] at hstep
      have hrest := ih (k + 1) { s with trigger_tracks := [(p, ⟨k + 1, some e⟩)] }
        (by simpa using hcfg) rfl (by omega) hm
        (fun t' ht' => hts t' (by simp [ht']))
        (by simp) (by simp only [List.length_cons] at hN ⊢; push_cast at hN ⊢; omega)
      rw [runEvals_cons]
      simp only [hstep]
      simp only [hrest]
      have harith : k + 1 + (us.length + 1) = k + (us.length + 1 + 1) := by omega
      simp [harith, List.replicate_succ]

/-! ### General-configuration lemmas -/

theorem checkExpiry_tracks_only (now : Int) (p : String) (s : Syncer) :
    ∃ m, checkExpiry now p s = { s with trigger_tracks := m } := by
  unfold checkExpiry
  split
  · exact ⟨s.trigger_tracks, rfl⟩
  · split
    · exact ⟨s.trigger_tracks, rfl⟩
    · split
      · exact ⟨_, rfl⟩
      · exact ⟨s.trigger_tracks, rfl⟩

theorem applyMatch_false_tracks_only (now : Int) (p : String) (conf : TriggerConf) (s : Syncer)
    (h : (applyMatch now p conf s).2 = false) :
    ∃ m, (applyMatch now p conf s).1 = { s with trigger_tracks := m } := by
  rcases heq : lookupAssoc s.trigger_tracks p with _ | tr
  · refine ⟨setAssoc s.trigger_tracks p ⟨1, some (now + conf.timeout)⟩, ?_⟩
    simp [applyMatch, heq]
  · by_cases hc : tr.count = 0
    · refine ⟨setAssoc s.trigger_tracks p ⟨1, some (now + conf.timeout)⟩, ?_⟩
      simp [applyMatch, heq, hc]
    · by_cases hth : (tr.count : Int) + 1 ≥ conf.count
      · exfalso
        simp [applyMatch, heq, hc, hth] at h
      · refine ⟨setAssoc s.trigger_tracks p ⟨tr.count + 1, tr.expires⟩, ?_⟩
        simp [applyMatch, heq, hc, hth]

theorem stepTrigger_false_tracks_only (now : Int) (data p : String) (conf : TriggerConf)
    (s : Syncer) (h : (stepTrigger now data p conf s).2 = false) :
    ∃ m, (stepTrigger now data p conf s).1 = { s with trigger_tracks := m } := by
  obtain ⟨m₁, hm₁⟩ := checkExpiry_tracks_only now p s
  by_cases hmatch : phraseInData p data
  · have hgoal : stepTrigger now data p conf s = applyMatch now p conf (checkExpiry now p s) := by
      simp [stepTrigger, hmatch]
    rw [hgoal] at h ⊢
    rw [hm₁] at h ⊢
    obtain ⟨m₂, hm₂⟩ := applyMatch_false_tracks_only now p conf _ h
    rw [hm₂]
    exact ⟨m₂, rfl⟩
  · have hgoal : stepTrigger now data p conf s = (checkExpiry now p s, false) := by
      simp [stepTrigger, hmatch]
    rw [hgoal, hm₁]
    exact ⟨m₁, rfl⟩

theorem syncLoop_false_tracks_only (now : Int) (data : String) :
    ∀ (cfg : List (String × TriggerConf)) (s : Syncer),
      (syncLoop now data cfg s).2 = false →
      ∃ m, (syncLoop now data cfg s).1 = { s with trigger_tracks := m } := by
  intro cfg
  induction cfg with
  | nil => intro s _; exact ⟨s.trigger_tracks, rfl⟩
  | cons pc rest ih =>
    intro s h
    obtain ⟨p, conf⟩ := pc
    simp only [syncLoop] at h ⊢
    by_cases hf : (stepTrigger now data p conf s).2
    · rw [if_pos hf] at h
      simp at h
    · rw [if_neg hf] at h ⊢
      have hfalse : (stepTrigger now data p conf s).2 = false := by
        simpa using hf
      obtain ⟨m₁, hm₁⟩ := stepTrigger_false_tracks_only now data p conf s hfalse
      obtain ⟨m₂, hm₂⟩ := ih _ h
      rw [hm₂, hm₁]
      exact ⟨m₂, rfl⟩

theorem mem_setAssoc {α : Type} (k : String) (v : α) :
    ∀ (m : List (String × α)) (kv : String × α), kv ∈ setAssoc m k v → kv ∈ m ∨ kv = (k, v) := by
  intro m
  induction m with
  | nil => intro kv hkv; simp [setAssoc] at hkv; exact Or.inr hkv
  | cons hd tl ih =>
    intro kv hkv
    obtain ⟨k', v'⟩ := hd
    simp only [setAssoc] at hkv
    by_cases hk : k' = k
    · rw [if_pos hk] at hkv
      rcases List.mem_cons.mp hkv with h | h
      · exact Or.inr h
      · exact Or.inl (List.mem_cons_of_mem _ h)
    · rw [if_neg hk] at hkv
      rcases List.mem_cons.mp hkv with h | h
      · exact Or.inl (h ▸ List.mem_cons_self _ _)
      · rcases ih kv h with h' | h'
        · exact Or.inl (List.mem_cons_of_mem _ h')
        · exact Or.inr h'

theorem lookupAssoc_mem {α : Type} (k : String) (v : α) :
    ∀ m : List (String × α), lookupAssoc m k = some v → (k, v) ∈ m := by
  intro m
  induction m with
  | nil => intro h; simp [lookupAssoc] at h
  | cons hd tl ih =>
    intro h
    obtain ⟨k', v'⟩ := hd
    simp only [lookupAssoc] at h
    by_cases hk : k' = k
    · rw [if_pos hk] at h
      subst hk
      simp at h
      subst h
      exact List.mem_cons_self _ _
    · rw [if_neg hk] at h
      exact List.mem_cons_of_mem _ (ih h)

theorem tracksWF_set (m : List (String × Track)) (k : String) (v : Track)
    (hm : tracksWF m) (hv : trackWF v) : tracksWF (setAssoc m k v) := by
  intro kv hkv
  rcases mem_setAssoc k v m kv hkv with h | h
  · exact hm kv h
  · rw [h]
    exact hv

theorem checkExpiry_WF (now : Int) (p : String) (s : Syncer)
    (h : tracksWF s.trigger_tracks) : tracksWF (checkExpiry now p s).trigger_tracks := by
  unfold checkExpiry
  split
  · exact h
  · split
    · exact h
    · split
      · exact tracksWF_set _ _ _ h (by simp [trackWF])
      · exact h

theorem applyMatch_WF (now : Int) (p : String) (conf : TriggerConf) (s : Syncer)
    (h : tracksWF s.trigger_tracks) : tracksWF ((applyMatch now p conf s).1).trigger_tracks := by
  unfold applyMatch
  split
  · exact tracksWF_set _ _ _ h (by simp [trackWF])
  · next tr heq =>
    split
    · exact tracksWF_set _ _ _ h (by simp [trackWF])
    · next hk =>
      have htr : tr.count = 0 ↔ tr.expires = none := h _ (lookupAssoc_mem p tr _ heq)
      have hexp : tr.expires ≠ none := fun hcontra => hk (htr.mpr hcontra)
      have hwf : trackWF ⟨tr.count + 1, tr.expires⟩ := by
        simp only [trackWF]
        constructor
        · intro hc; omega
        · intro hc; exact absurd hc hexp
      split
      · exact tracksWF_set _ _ _ h hwf
      · exact tracksWF_set _ _ _ h hwf

theorem stepTrigger_WF (now : Int) (data p : String) (conf : TriggerConf) (s : Syncer)
    (h : tracksWF s.trigger_tracks) :
    tracksWF ((stepTrigger now data p conf s).1).trigger_tracks := by
  unfold stepTrigger
  have h₁ := checkExpiry_WF now p s h
  split
  · exact applyMatch_WF now p conf _ h₁
  · exact h₁

theorem syncLoop_WF (now : Int) (data : String) :
    ∀ (cfg : List (String × TriggerConf)) (s : Syncer),
      tracksWF s.trigger_tracks → tracksWF ((syncLoop now data cfg s).1).trigger_tracks := by
  intro cfg
  induction cfg with
  | nil => intro s h; exact h
  | cons pc rest ih =>
    intro s h
    obtain ⟨p, conf⟩ := pc
    simp only [syncLoop]
    have h₁ := stepTrigger_WF now data p conf s h
    split
    · exact h₁
    · exact ih _ h₁

theorem checkExpiry_id (now : Int) (p : String) (s : Syncer)
    (h : ∀ tr, lookupAssoc s.trigger_tracks p = some tr →
      ∀ e, tr.expires = some e → now < e) :
    checkExpiry now p s = s := by
  unfold checkExpiry
  split
  · rfl
  · next tr heq =>
    split
    · rfl
    · next e hexp =>
      split
      · next hge => exact absurd (h tr heq e hexp) (not_lt.mpr hge)
      · rfl

theorem syncLoop_no_match (now : Int) (data : String) :
    ∀ (cfg : List (String × TriggerConf)) (s : Syncer),
      (∀ pc ∈ cfg, phraseInData pc.1 data = false) →
      (∀ pc ∈ cfg, ∀ tr, lookupAssoc s.trigger_tracks pc.1 = some tr →
        ∀ e, tr.expires = some e → now < e) →
      syncLoop now data cfg s = (s, false) := by
  intro cfg
  induction cfg with
  | nil => intro s _ _; rfl
  | cons pc rest ih =>
    intro s hnm hexp
    obtain ⟨p, conf⟩ := pc
    have hid : checkExpiry now p s = s := checkExpiry_id now p s (hexp (p, conf) (by simp))
    have hnm₁ : phraseInData p data = false := hnm (p, conf) (by simp)
    simp only [syncLoop, stepTrigger, hid, hnm₁]
    simp only [Bool.false_eq_true, if_false]
    exact ih s (fun pc hpc => hnm pc (by simp [hpc])) (fun pc hpc => hexp pc (by simp [hpc]))

theorem syncLoop_no_match_snd (now : Int) (data : String) :
    ∀ (cfg : List (String × TriggerConf)) (s : Syncer),
      (∀ pc ∈ cfg, phraseInData pc.1 data = false) →
      (syncLoop now data cfg s).2 = false := by
  intro cfg
  induction cfg with
  | nil => intro s _; rfl
  | cons pc rest ih =>
    intro s hnm
    obtain ⟨p, conf⟩ := pc
    have hnm₁ : phraseInData p data = false := hnm (p, conf) (by simp)
    simp only [syncLoop, stepTrigger, hnm₁]
    simp only [Bool.false_eq_true, if_false]
    exact ih _ (fun pc hpc => hnm pc (by simp [hpc]))

/-! ### Correctness of the executable substring test -/

theorem beginsWith_iff (n : List Char) :
    ∀ h : List Char, beginsWith n h = true ↔ ∃ t, n ++ t = h := by
  induction n with
  | nil => intro h; simp [beginsWith]
  | cons a as ih =>
    intro h
    cases h with
    | nil => simp [beginsWith]
    | cons b bs =>
      simp only [beginsWith, Bool.and_eq_true, decide_eq_true_eq, ih bs, List.cons_append,
        List.cons.injEq]
      constructor
      · rintro ⟨rfl, t, ht⟩
        exact ⟨t, rfl, ht⟩
      · rintro ⟨t, rfl, ht⟩
        exact ⟨rfl, t, ht⟩

theorem listContains_iff (n : List Char) :
    ∀ h : List Char, listContains n h = true ↔ ∃ u v, u ++ n ++ v = h := by
  intro h
  induction h with
  | nil =>
    simp only [listContains, beginsWith_iff]
    constructor
    · rintro ⟨t, ht⟩
      rcases List.append_eq_nil.mp ht with ⟨rfl, rfl⟩
      exact ⟨[], [], rfl⟩
    · rintro ⟨u, v, huv⟩
      rcases List.append_eq_nil.mp huv with ⟨huv', rfl⟩
      rcases List.append_eq_nil.mp huv' with ⟨rfl, rfl⟩
      exact ⟨[], rfl⟩
  | cons c rest ih =>
    simp only [listContains, Bool.or_eq_true, beginsWith_iff, ih]
    constructor
    · rintro (⟨t, ht⟩ | ⟨u, v, huv⟩)
      · exact ⟨[], t, by simpa using ht⟩
      · exact ⟨c :: u, v, by simp [huv]⟩
    · rintro ⟨u, v, huv⟩
      cases u with
      | nil => exact Or.inl ⟨v, by simpa using huv⟩
      | cons c' u' =>
        simp only [List.cons_append, List.cons.injEq] at huv
        exact Or.inr ⟨u', v, huv.2⟩

/-! ### Claims -/

/-- C1, counterexample: a trigger configured with `count = 1` does NOT fire on
the very first occurrence of its phrase. The first occurrence takes the
initialization branch of `sync_logic` (line 131-138), which performs no
threshold check, so the first evaluation returns `False`. -/
theorem c1_count_one_counterexample :
    (RcloneSyncer.sync_logic (RcloneSyncer.init [("x", ⟨1, 60, 5⟩)] []) 0 "seen x once").2
      = false := by
  decide

/-- C1 (amended): for a trigger with threshold `N ≥ 2`, feeding matching text
`N` times within the timeout window fires on the Nth evaluation and on none of
the earlier ones; and a trigger configured with `count = 1` fires on the
second matching evaluation, not the first, because the first occurrence only
initializes tracking without a threshold check. Here `N = ts.length + 1 ≥ 2`
with occurrences at `t₀ :: ts`, all of `ts` inside the window opened at `t₀`. -/
theorem c1_fires_on_nth (p data : String) (T S t₀ t₁ : Int) (ts : List Int)
    (hm : phraseInData p data = true) (hne : ts ≠ [])
    (hts : ∀ t ∈ ts, t < t₀ + T) (ht₁ : t₁ < t₀ + T) :
    runEvals (RcloneSyncer.init [(p, ⟨(ts.length : Int) + 1, T, S⟩)] []) data (t₀ :: ts) =
      ({ rclone_sleeps := [(p, ⟨(ts.length : Int) + 1, T, S⟩)]
         trigger_tracks := [(p, ⟨1 + ts.length, some (t₀ + T)⟩)]
         delayed_check := S
         delayed_trigger := some p }, List.replicate ts.length false ++ [true]) ∧
    runEvals (RcloneSyncer.init [(p, ⟨1, T, S⟩)] []) data [t₀, t₁] =
      ({ rclone_sleeps := [(p, ⟨1, T, S⟩)]
         trigger_tracks := [(p, ⟨2, some (t₀ + T)⟩)]
         delayed_check := S
         delayed_trigger := some p }, [false, true]) := by
  constructor
  · obtain ⟨u, us, rfl⟩ := List.exists_cons_of_ne_nil hne
    have hinit : RcloneSyncer.init [(p, ⟨((u :: us).length : Int) + 1, T, S⟩)] []
        = { rclone_sleeps := [(p, ⟨((u :: us).length : Int) + 1, T, S⟩)]
            trigger_tracks := []
            delayed_check := 0
            delayed_trigger := none } := rfl
    rw [hinit, runEvals_cons]
    have hstep := sync_logic_single_fresh p data ⟨((u :: us).length : Int) + 1, T, S⟩ t₀
      { rclone_sleeps := [(p, ⟨((u :: us).length : Int) + 1, T, S⟩)]
        trigger_tracks := []
        delayed_check := 0
        delayed_trigger := none } rfl rfl hm
    simp only [hstep]
    have hfire := runEvals_toFire p data ⟨((u :: us).length : Int) + 1, T, S⟩ (t₀ + T)
      (u :: us) 1
      { rclone_sleeps := [(p, ⟨((u :: us).length : Int) + 1, T, S⟩)]
        trigger_tracks := [(p, ⟨1, some (t₀ + T)⟩)]
        delayed_check := 0
        delayed_trigger := none } rfl rfl (by omega) hm hts (by simp)
      (by simp only [List.length_cons]; push_cast; ring)
    simp only [hfire]
    simp [List.replicate_succ]
  · have hinit : RcloneSyncer.init [(p, ⟨1, T, S⟩)] []
        = { rclone_sleeps := [(p, ⟨1, T, S⟩)]
            trigger_tracks := []
            delayed_check := 0
            delayed_trigger := none } := rfl
    rw [hinit, runEvals_cons]
    have hstep := sync_logic_single_fresh p data ⟨1, T, S⟩ t₀
      { rclone_sleeps := [(p, ⟨1, T, S⟩)]
        trigger_tracks := []
        delayed_check := 0
        delayed_trigger := none } rfl rfl hm
    simp only [hstep]
    have hstep₂ := sync_logic_single_active p data ⟨1, T, S⟩ 1 (t₀ + T) t₁
      { rclone_sleeps := [(p, ⟨1, T, S⟩)]
        trigger_tracks := [(p, ⟨1, some (t₀ + T)⟩)]
        delayed_check := 0
        delayed_trigger := none } rfl rfl (by omega) ht₁ hm
    rw [if_pos (by norm_num)] at hstep₂
    rw [runEvals_cons]
    simp only [hstep₂]
    simp [runEvals]

/-- C1, witness: with threshold 3 and phrase occurrences at times 0, 1, 2
inside a 60-second window, the evaluations return false, false, true; and with
threshold 1 and occurrences at 0 and 1, they return false then true. -/
theorem c1_fires_on_nth_witness :
    runEvals (RcloneSyncer.init [("x", ⟨3, 60, 5⟩)] []) "x" [0, 1, 2] =
      ({ rclone_sleeps := [("x", ⟨3, 60, 5⟩)]
         trigger_tracks := [("x", ⟨3, some 60⟩)]
         delayed_check := 5
         delayed_trigger := some "x" }, [false, false, true]) ∧
    runEvals (RcloneSyncer.init [("x", ⟨1, 60, 5⟩)] []) "x" [0, 1] =
      ({ rclone_sleeps := [("x", ⟨1, 60, 5⟩)]
         trigger_tracks := [("x", ⟨2, some 60⟩)]
         delayed_check := 5
         delayed_trigger := some "x" }, [false, true]) :=
  c1_fires_on_nth "x" "x" 60 5 0 1 [1, 2] (by decide) (by decide) (by decide) (by decide)

/-- C2, counterexample: constructing the syncer with a merged trigger
configuration holding a non-positive `count` (0) and a non-positive `timeout`
(-5) succeeds and stores the malformed configuration unchanged — there is no
configuration-validation error at construction, and a later evaluation also
proceeds normally. -/
theorem c2_no_validation_counterexample :
    RcloneSyncer.init [("x", ⟨0, -5, 7⟩)] []
      = { rclone_sleeps := [("x", ⟨0, -5, 7⟩)]
          trigger_tracks := []
          delayed_check := 0
          delayed_trigger := none } ∧
    (RcloneSyncer.sync_logic (RcloneSyncer.init [("x", ⟨0, -5, 7⟩)] []) 0 "x").2 = false := by
  constructor
  · rfl
  · decide

/-- C2 (amended): `__init__` performs no validation: for every pair of trigger
configurations, malformed or not, construction succeeds and stores the merged
configuration unchanged with empty tracking state; the effect of a
non-positive `count` surfaces only at evaluation time (here `count = 0` makes
the trigger fire on its second occurrence). -/
theorem c2_no_validation :
    (∀ fs ts : List (String × TriggerConf),
      RcloneSyncer.init fs ts
        = { rclone_sleeps := merge_dicts fs ts
            trigger_tracks := []
            delayed_check := 0
            delayed_trigger := none }) ∧
    runEvals (RcloneSyncer.init [("x", ⟨0, 60, 5⟩)] []) "x" [0, 1] =
      ({ rclone_sleeps := [("x", ⟨0, 60, 5⟩)]
         trigger_tracks := [("x", ⟨2, some 60⟩)]
         delayed_check := 5
         delayed_trigger := some "x" }, [false, true]) :=
  ⟨fun _ _ => rfl, by decide⟩

/-- C3, counterexample: evaluating with non-matching text does NOT leave every
trigger-state entry unchanged for every prior state and time: an entry whose
expiry has passed is reset to `(0, unset)` by the lazy-expiry check even
though the text matches nothing. -/
theorem c3_reset_counterexample :
    (RcloneSyncer.sync_logic
        { rclone_sleeps := [("x", ⟨3, 60, 5⟩)]
          trigger_tracks := [("x", ⟨1, some 5⟩)]
          delayed_check := 0
          delayed_trigger := none } 10 "zzz").1.trigger_tracks
      = [("x", ⟨0, none⟩)] ∧
    (RcloneSyncer.sync_logic
        { rclone_sleeps := [("x", ⟨3, 60, 5⟩)]
          trigger_tracks := [("x", ⟨1, some 5⟩)]
          delayed_check := 0
          delayed_trigger := none } 10 "zzz").1.trigger_tracks
      ≠ [("x", ⟨1, some 5⟩)] := by
  decide

/-- C3 (amended): evaluating with text that matches no configured trigger
phrase leaves the whole syncer state unchanged (and returns not-fired),
provided no tracked entry of a configured trigger has expired at the
evaluation time; in general the only state change a non-matching evaluation
can make is the lazy-expiry reset. -/
theorem c3_no_match_frame (s : Syncer) (now : Int) (data : String)
    (hnm : ∀ pc ∈ s.rclone_sleeps, phraseInData pc.1 data = false)
    (hexp : ∀ pc ∈ s.rclone_sleeps, ∀ tr, lookupAssoc s.trigger_tracks pc.1 = some tr →
      ∀ e, tr.expires = some e → now < e) :
    RcloneSyncer.sync_logic s now data = (s, false) :=
  syncLoop_no_match now data s.rclone_sleeps s hnm hexp

/-- C3, witness: with one tracked, unexpired trigger and non-matching text the
evaluation is the identity on the state. -/
theorem c3_no_match_frame_witness :
    RcloneSyncer.sync_logic
        { rclone_sleeps := [("x", ⟨3, 60, 5⟩)]
          trigger_tracks := [("x", ⟨1, some 100⟩)]
          delayed_check := 0
          delayed_trigger := none } 3 "zzz"
      = ({ rclone_sleeps := [("x", ⟨3, 60, 5⟩)]
           trigger_tracks := [("x", ⟨1, some 100⟩)]
           delayed_check := 0
           delayed_trigger := none }, false) :=
  c3_no_match_frame _ 3 "zzz" (by decide)
    (by
      intro pc hpc tr htr e he
      simp only [List.mem_singleton] at hpc
      subst hpc
      have htr' : some (⟨1, some 100⟩ : Track) = some tr := by
        rw [← htr]
        rfl
      cases htr'
      have he' : some (100 : Int) = some e := he
      cases he'
      omega)

/-- C4: feeding the phrase `N - 1` times within the window (occurrences at
`t₀ :: ts`, so `N = ts.length + 2`), then evaluating once more with matching
text at a time `tf` at or past the stored expiry `t₀ + timeout`, never fires:
the expired entry is reset before matching and the final evaluation is a fresh
first occurrence, leaving count 1, a new expiry `tf + timeout`, and the
cooldown fields untouched. -/
theorem c4_expiry_resets_before_matching (p data : String) (T S t₀ tf : Int) (ts : List Int)
    (hm : phraseInData p data = true) (hts : ∀ t ∈ ts, t < t₀ + T) (hexp : t₀ + T ≤ tf) :
    runEvals (RcloneSyncer.init [(p, ⟨(ts.length : Int) + 2, T, S⟩)] []) data
        (t₀ :: (ts ++ [tf])) =
      ({ rclone_sleeps := [(p, ⟨(ts.length : Int) + 2, T, S⟩)]
         trigger_tracks := [(p, ⟨1, some (tf + T)⟩)]
         delayed_check := 0
         delayed_trigger := none }, List.replicate (ts.length + 2) false) := by
  have hinit : RcloneSyncer.init [(p, ⟨(ts.length : Int) + 2, T, S⟩)] []
      = { rclone_sleeps := [(p, ⟨(ts.length : Int) + 2, T, S⟩)]
          trigger_tracks := []
          delayed_check := 0
          delayed_trigger := none } := rfl
  rw [hinit, runEvals_cons]
  have hstep := sync_logic_single_fresh p data ⟨(ts.length : Int) + 2, T, S⟩ t₀
    { rclone_sleeps := [(p, ⟨(ts.length : Int) + 2, T, S⟩)]
      trigger_tracks := []
      delayed_check := 0
      delayed_trigger := none } rfl rfl hm
  simp only [hstep]
  rw [runEvals_append]
  have haccum := runEvals_accum p data ⟨(ts.length : Int) + 2, T, S⟩ (t₀ + T) ts 1
    { rclone_sleeps := [(p, ⟨(ts.length : Int) + 2, T, S⟩)]
      trigger_tracks := [(p, ⟨1, some (t₀ + T)⟩)]
      delayed_check := 0
      delayed_trigger := none } rfl rfl (by omega) hm hts (by push_cast; omega)
  simp only [haccum]
  have hfinal := sync_logic_single_expired p data ⟨(ts.length : Int) + 2, T, S⟩
    (1 + ts.length) (t₀ + T) tf
    { rclone_sleeps := [(p, ⟨(ts.length : Int) + 2, T, S⟩)]
      trigger_tracks := [(p, ⟨1 + ts.length, some (t₀ + T)⟩)]
      delayed_check := 0
      delayed_trigger := none } rfl rfl hexp hm
  rw [runEvals_cons]
  simp only [hfinal]
  simp only [runEvals]
  have harith : ts.length + 2 = ts.length + 1 + 1 := by omega
  rw [harith, List.replicate_add, List.replicate_add]
  simp
  rw [← List.cons_append, ← List.replicate_succ, List.replicate_succ', List.append_assoc]
  rfl

/-- C4, witness: threshold 3, occurrences at 0 and 1 within a 60-second
window, then a matching occurrence at exactly the expiry time 60: no
evaluation fires and the final count is 1 with a fresh expiry at 120. -/
theorem c4_expiry_resets_before_matching_witness :
    runEvals (RcloneSyncer.init [("x", ⟨3, 60, 5⟩)] []) "x" [0, 1, 60] =
      ({ rclone_sleeps := [("x", ⟨3, 60, 5⟩)]
         trigger_tracks := [("x", ⟨1, some 120⟩)]
         delayed_check := 0
         delayed_trigger := none }, [false, false, false]) :=
  c4_expiry_resets_before_matching "x" "x" 60 5 0 60 [1] (by decide) (by decide) (by decide)

/-- C5: with the trigger configuration (phrase "rate limit", count 3,
timeout 60, sleep 300), three matching evaluations within 10 seconds return
not-fired, not-fired, fired, and the firing evaluation records the phrase in
`delayed_trigger` and the cooldown 300 in `delayed_check`. -/
theorem c5_rate_limit_scenario :
    runEvals (RcloneSyncer.init [("rate limit", ⟨3, 60, 300⟩)] [])
        "... rate limit ..." [0, 5, 10]
      = ({ rclone_sleeps := [("rate limit", ⟨3, 60, 300⟩)]
           trigger_tracks := [("rate limit", ⟨3, some 60⟩)]
           delayed_check := 300
           delayed_trigger := some "rate limit" }, [false, false, true]) := by
  decide

/-- C6: one evaluation of `sync_logic` preserves the invariant that a tracked
entry's count is zero exactly when its expiry is unset, starting from any
trigger-state map whose entries satisfy it. -/
theorem c6_count_zero_iff_unset (s : Syncer) (now : Int) (data : String)
    (h : tracksWF s.trigger_tracks) :
    tracksWF ((RcloneSyncer.sync_logic s now data).1).trigger_tracks :=
  syncLoop_WF now data s.rclone_sleeps s h

/-- C6, witness: the invariant holds before and after a concrete matching
evaluation that increments a tracked count. -/
theorem c6_count_zero_iff_unset_witness :
    tracksWF [("x", (⟨1, some 60⟩ : Track))] ∧
    tracksWF ((RcloneSyncer.sync_logic
        { rclone_sleeps := [("x", ⟨2, 60, 5⟩)]
          trigger_tracks := [("x", ⟨1, some 60⟩)]
          delayed_check := 0
          delayed_trigger := none } 10 "x").1).trigger_tracks :=
  ⟨by decide, c6_count_zero_iff_unset _ 10 "x" (by decide)⟩

/-- C7: a fired trigger's state is not reset by the firing evaluation. From an
active tracked state one increment below or past the threshold, the evaluation
at `t₁` fires and leaves the incremented count in place; a further evaluation
at `t₂` before the stored expiry with matching text increments again, still
meets the `>=` threshold, and fires again immediately. -/
theorem c7_fired_state_not_reset (p data : String) (conf : TriggerConf) (k : Nat)
    (e t₁ t₂ : Int) (s : Syncer)
    (hcfg : s.rclone_sleeps = [(p, conf)]) (htr : s.trigger_tracks = [(p, ⟨k, some e⟩)])
    (hk : k ≠ 0) (hth : (k : Int) + 1 ≥ conf.count) (h₁ : t₁ < e) (h₂ : t₂ < e)
    (hm : phraseInData p data = true) :
    (RcloneSyncer.sync_logic s t₁ data).2 = true ∧
    (RcloneSyncer.sync_logic s t₁ data).1.trigger_tracks = [(p, ⟨k + 1, some e⟩)] ∧
    (RcloneSyncer.sync_logic (RcloneSyncer.sync_logic s t₁ data).1 t₂ data).2 = true ∧
    (RcloneSyncer.sync_logic (RcloneSyncer.sync_logic s t₁ data).1 t₂ data).1.trigger_tracks
      = [(p, ⟨k + 2, some e⟩)] := by
  have hstep₁ := sync_logic_single_active p data conf k e t₁ s hcfg htr hk h₁ hm
  rw [if_pos hth] at hstep₁
  have hcfg₂ : (RcloneSyncer.sync_logic s t₁ data).1.rclone_sleeps = [(p, conf)] := by
    rw [hstep₁]
    exact hcfg
  have htr₂ : (RcloneSyncer.sync_logic s t₁ data).1.trigger_tracks
      = [(p, ⟨k + 1, some e⟩)] := by
    rw [hstep₁]
  have hth₂ : ((k + 1 : Nat) : Int) + 1 ≥ conf.count := by push_cast at hth ⊢; omega
  have hstep₂ := sync_logic_single_active p data conf (k + 1) e t₂ _ hcfg₂ htr₂
    (by omega) h₂ hm
  rw [if_pos hth₂] at hstep₂
  refine ⟨by rw [hstep₁], htr₂, by rw [hstep₂], by rw [hstep₂]⟩

/-- C7, witness: a trigger with threshold 1 that has fired once (count 1,
expiry 100) fires again at time 1 with count 3 after two more evaluations. -/
theorem c7_fired_state_not_reset_witness :
    (RcloneSyncer.sync_logic
        { rclone_sleeps := [("x", ⟨1, 60, 5⟩)]
          trigger_tracks := [("x", ⟨1, some 100⟩)]
          delayed_check := 5
          delayed_trigger := some "x" } 0 "x").2 = true ∧
    (RcloneSyncer.sync_logic
        { rclone_sleeps := [("x", ⟨1, 60, 5⟩)]
          trigger_tracks := [("x", ⟨1, some 100⟩)]
          delayed_check := 5
          delayed_trigger := some "x" } 0 "x").1.trigger_tracks
      = [("x", ⟨2, some 100⟩)] ∧
    (RcloneSyncer.sync_logic (RcloneSyncer.sync_logic
        { rclone_sleeps := [("x", ⟨1, 60, 5⟩)]
          trigger_tracks := [("x", ⟨1, some 100⟩)]
          delayed_check := 5
          delayed_trigger := some "x" } 0 "x").1 1 "x").2 = true ∧
    (RcloneSyncer.sync_logic (RcloneSyncer.sync_logic
        { rclone_sleeps := [("x", ⟨1, 60, 5⟩)]
          trigger_tracks := [("x", ⟨1, some 100⟩)]
          delayed_check := 5
          delayed_trigger := some "x" } 0 "x").1 1 "x").1.trigger_tracks
      = [("x", ⟨3, some 100⟩)] :=
  c7_fired_state_not_reset "x" "x" ⟨1, 60, 5⟩ 1 100 0 1 _ rfl rfl (by decide) (by decide)
    (by decide) (by decide) (by decide)

/-- C8: trigger matching is case-insensitive substring containment: the test
used by `sync_logic` succeeds exactly when the lowercased phrase occurs
contiguously inside the lowercased text; "Quota Exceeded" matches
"quota exceeded" and "QUOTA EXCEEDED", and a phrase embedded in a longer log
line matches. -/
theorem c8_case_insensitive_substring :
    (∀ phrase data : String, phraseInData phrase data = true ↔
      ∃ u v, u ++ phrase.toList.map Char.toLower ++ v = data.toList.map Char.toLower) ∧
    phraseInData "Quota Exceeded" "quota exceeded" = true ∧
    phraseInData "Quota Exceeded" "QUOTA EXCEEDED" = true ∧
    phraseInData "Quota Exceeded" "2020/01/01 ERROR: quota exceeded, retrying later" = true := by
  refine ⟨fun phrase data => listContains_iff _ _, ?_, ?_, ?_⟩ <;> decide

/-- C9: one evaluation pass is a total function: for every state, time and
input text (the empty string and arbitrary unicode included) it returns a
boolean decision, and when no configured phrase matches the text the decision
is the normal not-fired outcome `false`. -/
theorem c9_total_no_error (s : Syncer) (now : Int) (data : String) :
    ((RcloneSyncer.sync_logic s now data).2 = true ∨
      (RcloneSyncer.sync_logic s now data).2 = false) ∧
    ((∀ pc ∈ s.rclone_sleeps, phraseInData pc.1 data = false) →
      (RcloneSyncer.sync_logic s now data).2 = false) :=
  ⟨Bool.eq_false_or_eq_true _, fun hnm => syncLoop_no_match_snd now data s.rclone_sleeps s hnm⟩

/-- C9, witness: evaluating with the empty string on a configured syncer
returns the not-fired decision. -/
theorem c9_total_no_error_witness :
    (RcloneSyncer.sync_logic
        { rclone_sleeps := [("x", ⟨3, 60, 5⟩)]
          trigger_tracks := []
          delayed_check := 0
          delayed_trigger := none } 0 "").2 = false :=
  (c9_total_no_error _ 0 "").2 (by decide)

/-- C10: whenever an evaluation returns not-fired, the cooldown fields
`delayed_check` and `delayed_trigger` keep the values they had before the
call; they are only written on the evaluation that returns fired. -/
theorem c10_delayed_fields_frame (s : Syncer) (now : Int) (data : String)
    (h : (RcloneSyncer.sync_logic s now data).2 = false) :
    (RcloneSyncer.sync_logic s now data).1.delayed_check = s.delayed_check ∧
    (RcloneSyncer.sync_logic s now data).1.delayed_trigger = s.delayed_trigger := by
  obtain ⟨m, hm⟩ := syncLoop_false_tracks_only now data s.rclone_sleeps s h
  constructor
  · simp only [RcloneSyncer.sync_logic, hm]
  · simp only [RcloneSyncer.sync_logic, hm]

/-- C10, witness: a first occurrence returns not-fired and leaves the cooldown
fields at their initial values. -/
theorem c10_delayed_fields_frame_witness :
    (RcloneSyncer.sync_logic (RcloneSyncer.init [("x", ⟨3, 60, 5⟩)] []) 0 "x").1.delayed_check
      = (RcloneSyncer.init [("x", ⟨3, 60, 5⟩)] []).delayed_check ∧
    (RcloneSyncer.sync_logic (RcloneSyncer.init [("x", ⟨3, 60, 5⟩)] []) 0 "x").1.delayed_trigger
      = (RcloneSyncer.init [("x", ⟨3, 60, 5⟩)] []).delayed_trigger :=
  c10_delayed_fields_frame _ 0 "x" (by decide)

end Cloudplow
